import Mathlib

/-!
# RumbleDeck — formal model of the trigger engine and actuator codec

Shallow embedding of the RumbleDeck sources:

* `backend/src/main.c` (the "rumblesniffer"): the USB-monitor scan loop,
  the `send_i2c_signal` dispatch and the `{0x0C, 0x01}` GO signal.
* `src/index.tsx`: the sequencer step codec (`encodeSteps`, the decoding in
  `doLoad`), the `LIBRARIES` table and the `EFFECT_ID_MAX` cap.

Components that the specification describes but whose code lives in the
Python backend (absent from the sources at hand) are modelled from the
specification and marked as such in their doc comments.
-/

namespace RumbleDeck

/-! ## Trigger engine (backend/src/main.c) -/

/-- The sniffed pattern: `#define PATTERN "eb090140"`. The C code runs
`memcmp(&buffer[i], PATTERN, 8)`, i.e. it compares the raw stream bytes
against the 8 ASCII characters of this string. -/
def TRIGGER_SIG : List Nat := [0x65, 0x62, 0x30, 0x39, 0x30, 0x31, 0x34, 0x30]

/-- Fixed I2C slave address of the driver(s): `#define I2C_ADDR 0x5a`,
installed once with `ioctl(i2c_fd, I2C_SLAVE, I2C_ADDR)`. -/
def I2C_ADDR : Nat := 0x5a

/-- The two-byte GO signal sent on every match:
`unsigned char data_to_send[] = {0x0C, 0x01}`. -/
def GO_SIGNAL : List Nat := [0x0C, 0x01]

/-- Match positions of one pass of the scan loop over one read buffer:
`for (i = 0; i < bytesRead; i++) if (i + 7 < bytesRead && memcmp(&buffer[i], PATTERN, 8) == 0)`. -/
def scanPositions (chunk : List Nat) : List Nat :=
  (List.range chunk.length).filter
    (fun i => decide (i + 7 < chunk.length) && ((chunk.drop i).take 8 == TRIGGER_SIG))

/-- Observable events of the sniffer process: a successful I2C write
(the success `printf`), a failed I2C write (the `perror` log in
`send_i2c_signal`), or the fatal usbmon read failure (`perror` + `return 1`). -/
inductive Event where
  | i2cSent (addr : Nat) (data : List Nat)
  | i2cError (addr : Nat) (data : List Nat)
  | readFault
deriving DecidableEq, Repr

/-- `send_i2c_signal(i2c_fd, data, length)`: one `write` attempt; on failure it
only logs (`perror`) and returns, on success it logs the bytes sent.
`writeOk` is the outcome of the underlying bus write. -/
def sendI2CSignal (writeOk : Bool) (addr : Nat) (data : List Nat) : Event :=
  if writeOk then Event.i2cSent addr data else Event.i2cError addr data

/-- The address/data payload a dispatch event put on the bus (`none` for the
read-fault event, which writes nothing). -/
def eventPayload : Event → Option (Nat × List Nat)
  | Event.i2cSent a d => some (a, d)
  | Event.i2cError a d => some (a, d)
  | Event.readFault => none

/-- Kind of an event, ignoring the success/failure of the bus write. -/
inductive EventKind where
  | dispatch
  | fault
deriving DecidableEq, Repr

def eventKind : Event → EventKind
  | Event.i2cSent _ _ => EventKind.dispatch
  | Event.i2cError _ _ => EventKind.dispatch
  | Event.readFault => EventKind.fault

/-- Result of one `read(usbmon_fd, buffer, sizeof(buffer))` call: a chunk of
bytes, or a failure (`bytesRead == -1`). -/
inductive ReadResult where
  | chunk (data : List Nat)
  | fault
deriving DecidableEq, Repr

/-- One pass of the inner scan loop over one chunk: each match position
dispatches the GO signal to `I2C_ADDR` via `send_i2c_signal`. The oracle
`writeOk` gives the outcome of the j-th bus write of the whole session;
`k` is the number of dispatches made before this chunk. -/
def processChunk (chunk : List Nat) (writeOk : Nat → Bool) (k : Nat) : List Event :=
  (scanPositions chunk).enum.map
    (fun p => sendI2CSignal (writeOk (k + p.1)) I2C_ADDR GO_SIGNAL)

/-- The `while (1)` main loop of `main`, driven by a (finite prefix of the)
sequence of usbmon read results: scan each chunk, dispatch per match, and on a
failed read log the fault, close and exit (`return 1`). -/
def runSniffer (writeOk : Nat → Bool) : List ReadResult → Nat → List Event
  | [], _ => []
  | ReadResult.fault :: _, _ => [Event.readFault]
  | ReadResult.chunk c :: rest, k =>
      processChunk c writeOk k ++ runSniffer writeOk rest (k + (scanPositions c).length)

/-- Occurrence positions of the trigger signature in a whole, un-chunked byte
stream (the ground truth the scanner is measured against). -/
def streamOccurrences (s : List Nat) : List Nat :=
  (List.range s.length).filter (fun i => (s.drop i).take 8 == TRIGGER_SIG)

/-! ## Sequencer step codec (src/index.tsx) -/

/-- `type Step = { isWait: boolean; val: number }` — effect id (1..127) or
wait ms (0..1270). `val` is an integer here; `Math.trunc` in the source is the
identity on integral slider values. -/
structure Step where
  isWait : Bool
  val : Int
deriving DecidableEq, Repr

/-- Body of the `encodeSteps` loop for one step:
wait: `ms = Math.max(0, Math.min(1270, Math.trunc(s.val)))`,
`ticks = Math.min(127, Math.floor(ms / 10))`, emit `0x80 | ticks`;
effect: `id = Math.max(1, Math.min(127, Math.trunc(s.val)))`, emit `id`. -/
def encodeStep (s : Step) : Nat :=
  if s.isWait then
    let ms : Int := max 0 (min 1270 s.val)
    let ticks : Nat := min 127 (ms.toNat / 10)
    0x80 ||| ticks
  else
    (max 1 (min 127 s.val)).toNat

/-- `encodeSteps(steps)`: `for (const s of steps.slice(0, 8)) out.push(...)` —
one byte per step, first 8 steps only; no terminator is emitted here
(the source comment: backend will append terminator 0x00 if needed). -/
def encodeSteps (steps : List Step) : List Nat :=
  (steps.take 8).map encodeStep

/-- The per-byte decoding in `doLoad`:
`if (b & 0x80) { ticks = b & 0x7F; Wait(ticks * 10) } else Effect(Math.max(1, Math.min(127, b)))`. -/
def decodeByte (b : Nat) : Step :=
  if b &&& 0x80 ≠ 0 then { isWait := true, val := (((b &&& 0x7F) * 10 : Nat) : Int) }
  else { isWait := false, val := max 1 (min 127 (b : Int)) }

/-- The step decoding in `doLoad`: `(p.steps || []).slice(0, 8).map(...)`. -/
def decodeSteps (bytes : List Nat) : List Step :=
  (bytes.take 8).map decodeByte

/-! ## Library table (src/index.tsx) -/

structure LibInfo where
  id : Nat
  name : String
  note : String
  effectMax : Nat
deriving DecidableEq, Repr

/-- `const LIBRARIES: LibInfo[]` — the seven ROM waveform libraries with their
effect caps. -/
def LIBRARIES : List LibInfo :=
  [ { id := 0, name := "Empty",         note := "No ROM effects",          effectMax := 0 },
    { id := 1, name := "ERM Library 1", note := "Clicks / strong pulses",  effectMax := 127 },
    { id := 2, name := "ERM Library 2", note := "Sharp / crisp",           effectMax := 127 },
    { id := 3, name := "ERM Library 3", note := "Soft / smooth",           effectMax := 127 },
    { id := 4, name := "ERM Library 4", note := "Double / ramp patterns",  effectMax := 127 },
    { id := 5, name := "ERM Library 5", note := "Transitions / textures",  effectMax := 127 },
    { id := 6, name := "LRA",           note := "LRA-tuned patterns",      effectMax := 64 } ]

/-- `const EFFECT_ID_MAX = 123` — the global effect-id cap. -/
def EFFECT_ID_MAX : Nat := 123

/-- `const libById = (id) => LIBRARIES.find(l => l.id === id) ?? LIBRARIES[0]`. -/
def libById (i : Nat) : LibInfo :=
  (LIBRARIES.find? (fun l => l.id == i)).getD
    { id := 0, name := "Empty", note := "No ROM effects", effectMax := 0 }

/-! ## Components modelled from the specification

The Python backend of the plugin (the `program_sequence`, preset and
terminator logic behind the `callable` declarations in src/index.tsx) is not
among the sources; the following definitions are modelled from the
specification, against the real `encodeSteps`, `LIBRARIES` and
`EFFECT_ID_MAX` above. -/

/-- Modelled from the spec: the terminator rule of `encodeSequence` (§4.4),
implemented by the missing Python backend (src/index.tsx line 281: backend
will append terminator 0x00 if needed) — append a terminator byte (0x00) only
if fewer than 8 steps were supplied and the last byte is not already a
terminator. -/
def encodeSequence (steps : List Step) : List Nat :=
  let out := encodeSteps steps
  if steps.length < 8 ∧ out.getLast? ≠ some 0 then out ++ [0] else out

inductive SeqError where
  | outOfRange
deriving DecidableEq, Repr

/-- Modelled from the spec: `programSequence(steps)` of the ActuatorController
(§4.5), implemented by the missing Python backend — validates step count ≤ 8
and each Effect id against the currently selected library cap and the global
cap (123); per §7 an `OutOfRange` failure is rejected before any bus I/O, so
the error branch carries no write. On success it encodes via §4.4 and yields
the sequencer register block bytes to be written. Library caps come from the
source table `LIBRARIES`; the global cap from the source `EFFECT_ID_MAX`. -/
def programSequence (libId : Nat) (steps : List Step) : Except SeqError (List Nat) :=
  if 8 < steps.length then Except.error SeqError.outOfRange
  else if steps.any (fun s =>
      !s.isWait &&
        (decide (((libById libId).effectMax : Int) < s.val) ||
         decide ((EFFECT_ID_MAX : Int) < s.val))) then
    Except.error SeqError.outOfRange
  else Except.ok (encodeSequence steps)

/-- Modelled from the spec: the ActionDebouncer (§4.2), which the sources only
approximate with a fixed `usleep(10000)` after each dispatch (§9 reframes that
sleep as an explicit cool-down) — holds the last-fired timestamp and enforces
a minimum inter-fire interval; attempts inside the window are dropped, never
buffered. -/
structure Debouncer where
  cooldownMs : Nat
  lastFired : Option Nat
deriving DecidableEq, Repr

/-- Modelled from the spec: `ActionDebouncer.shouldFire(now)` — fires (and
records `now`) iff no previous fire exists or at least `cooldownMs` elapsed
since the last one; a suppressed attempt leaves the state unchanged. -/
def shouldFire (d : Debouncer) (now : Nat) : Bool × Debouncer :=
  match d.lastFired with
  | none => (true, { d with lastFired := some now })
  | some t =>
      if d.cooldownMs ≤ now - t then (true, { d with lastFired := some now })
      else (false, d)

/-- Validity of a step per the specification data model (§3): a Wait holds a
whole multiple of 10 ms in 0..1270, an Effect an id in 1..127. -/
def ValidStep (s : Step) : Prop :=
  (s.isWait = true → 0 ≤ s.val ∧ s.val ≤ 1270 ∧ s.val % 10 = 0) ∧
  (s.isWait = false → 1 ≤ s.val ∧ s.val ≤ 127)

instance (s : Step) : Decidable (ValidStep s) := by
  unfold ValidStep; infer_instance

/-! ## Helper lemmas -/

/-- Bit arithmetic of the wait encoding: for ticks below 128, `0x80 | ticks`
has bit 7 set, its low 7 bits are the ticks, and it lies in `0x80..0xFF`. -/
theorem lor_bits : ∀ t : Nat, t < 128 →
    (0x80 ||| t) &&& 0x80 ≠ 0 ∧ (0x80 ||| t) &&& 0x7F = t ∧
    0x80 ≤ (0x80 ||| t) ∧ (0x80 ||| t) ≤ 0xFF := by decide

/-- An effect byte (below 128) has bit 7 clear. -/
theorem land_128_eq_zero : ∀ n : Nat, n < 128 → n &&& 0x80 = 0 := by decide

/-- A Wait step encodes into `0x80..0xFF`. -/
theorem encodeStep_wait_range (s : Step) (h : s.isWait = true) :
    0x80 ≤ encodeStep s ∧ encodeStep s ≤ 0xFF := by
  have ht : min 127 ((max 0 (min 1270 s.val)).toNat / 10) < 128 := by omega
  have hb := lor_bits _ ht
  simp only [encodeStep, h, if_true]
  exact ⟨hb.2.2.1, hb.2.2.2⟩

/-- An Effect step encodes into `1..127`. -/
theorem encodeStep_effect_range (s : Step) (h : s.isWait = false) :
    1 ≤ encodeStep s ∧ encodeStep s ≤ 127 := by
  simp only [encodeStep, h, Bool.false_eq_true, if_false]
  omega

/-- No step ever encodes to the terminator byte `0x00`. -/
theorem encodeStep_ne_zero (s : Step) : encodeStep s ≠ 0 := by
  cases hb : s.isWait
  · have := encodeStep_effect_range s hb; omega
  · have := encodeStep_wait_range s hb; omega

/-- Per-step round trip: decoding an encoded valid step gives it back. -/
theorem decodeByte_encodeStep (s : Step) (hs : ValidStep s) :
    decodeByte (encodeStep s) = s := by
  obtain ⟨b, v⟩ := s
  obtain ⟨hw, he⟩ := hs
  dsimp only at hw he
  cases b with
  | false =>
      obtain ⟨h1, h2⟩ := he rfl
      have hmin : min (127 : Int) v = v := min_eq_right h2
      have hmax : max (1 : Int) v = v := max_eq_right h1
      have henc : encodeStep ⟨false, v⟩ = v.toNat := by
        simp [encodeStep, hmin, hmax]
      have hlt : v.toNat < 128 := by omega
      have hcast : ((v.toNat : Int)) = v := Int.toNat_of_nonneg (by omega)
      rw [henc]
      simp only [decodeByte, land_128_eq_zero _ hlt, ne_eq, not_true_eq_false,
        if_false, ite_false]
      simp [hcast, hmin, hmax]
  | true =>
      obtain ⟨h0, h1, h2⟩ := hw rfl
      have hminv : min (1270 : Int) v = v := min_eq_right h1
      have hmaxv : max (0 : Int) v = v := max_eq_right h0
      have hmint : min 127 (v.toNat / 10) = v.toNat / 10 := by omega
      have henc : encodeStep ⟨true, v⟩ = 0x80 ||| (v.toNat / 10) := by
        simp [encodeStep, hminv, hmaxv, hmint]
      obtain ⟨hne, hand, -, -⟩ := lor_bits (v.toNat / 10) (by omega)
      rw [henc]
      unfold decodeByte
      rw [if_pos hne, hand]
      have hmul : v.toNat / 10 * 10 = v.toNat := by omega
      have hcast : ((v.toNat : Int)) = v := Int.toNat_of_nonneg h0
      simp [hmul, hcast]

/-- List-level round trip of the raw per-step maps. -/
theorem decode_map_encode (steps : List Step) (h : ∀ s ∈ steps, ValidStep s) :
    (steps.map encodeStep).map decodeByte = steps := by
  induction steps with
  | nil => rfl
  | cons a t ih =>
      simp only [List.map_cons, List.cons.injEq]
      exact ⟨decodeByte_encodeStep a (h a (List.mem_cons_self a t)),
        ih (fun s hs => h s (List.mem_cons_of_mem a hs))⟩

/-- The encoder never outputs the terminator as its last byte. -/
theorem encodeSteps_getLast?_ne_zero (steps : List Step) :
    (encodeSteps steps).getLast? ≠ some 0 := by
  intro h
  have hmem : (0 : Nat) ∈ encodeSteps steps := List.mem_of_mem_getLast? h
  obtain ⟨s, -, hs⟩ := List.mem_map.1 hmem
  exact encodeStep_ne_zero s hs

/-! ## Claim theorems: codec -/

/-- C3: for every valid sequence of at most 8 sequencer steps (Effect ids in
1..127, Wait durations a whole multiple of 10 ms in 0..1270 ms), decoding the
byte sequence produced by encoding it yields the original step sequence. -/
theorem decodeSteps_encodeSteps (steps : List Step) (hlen : steps.length ≤ 8)
    (hval : ∀ s ∈ steps, ValidStep s) :
    decodeSteps (encodeSteps steps) = steps := by
  have htake : steps.take 8 = steps := List.take_of_length_le hlen
  unfold decodeSteps encodeSteps
  rw [htake, List.take_of_length_le (by rw [List.length_map]; exact hlen)]
  exact decode_map_encode steps hval

/-- Witness for C3: the round trip on the default editor sequence
Effect 1, Wait 100 ms, Effect 2. -/
theorem decodeSteps_encodeSteps_witness :
    decodeSteps (encodeSteps [{ isWait := false, val := 1 },
      { isWait := true, val := 100 }, { isWait := false, val := 2 }]) =
      [{ isWait := false, val := 1 }, { isWait := true, val := 100 },
        { isWait := false, val := 2 }] :=
  decodeSteps_encodeSteps _ (by decide) (by decide)

/-- C10: every byte emitted by the step encoder is nonzero — a Wait step
encodes with bit 7 set (0x80..0xFF), an Effect step to a clamped id in 1..127,
so no encoded byte equals the 0x00 terminator — and the output has at most
8 bytes. -/
theorem encodeSteps_bytes_nonzero (steps : List Step) :
    (encodeSteps steps).length ≤ 8 ∧
    (∀ s : Step, s.isWait = true → 0x80 ≤ encodeStep s ∧ encodeStep s ≤ 0xFF) ∧
    (∀ s : Step, s.isWait = false → 1 ≤ encodeStep s ∧ encodeStep s ≤ 127) ∧
    (∀ b ∈ encodeSteps steps, b ≠ 0) := by
  refine ⟨?_, encodeStep_wait_range, encodeStep_effect_range, ?_⟩
  · simp only [encodeSteps, List.length_map, List.length_take]
    omega
  · intro b hb
    obtain ⟨s, -, hs⟩ := List.mem_map.1 hb
    exact hs ▸ encodeStep_ne_zero s

/-- Witness for C10: a Wait of 100 ms encodes into the wait byte range. -/
theorem encodeSteps_bytes_nonzero_witness :
    0x80 ≤ encodeStep { isWait := true, val := 100 } ∧
      encodeStep { isWait := true, val := 100 } ≤ 0xFF :=
  (encodeSteps_bytes_nonzero []).2.1 { isWait := true, val := 100 } rfl

/-- C4: the encoder maps only the first 8 steps (truncation point exactly
index 8, silent beyond it), and the terminator byte 0x00 is appended exactly
when fewer than 8 steps were supplied — the last emitted byte is never itself
a terminator, so the conjunct about it never blocks the append. -/
theorem encodeSteps_truncation_terminator (steps : List Step) :
    encodeSteps steps = encodeSteps (steps.take 8) ∧
    (encodeSteps steps).length = min steps.length 8 ∧
    (encodeSequence steps = encodeSteps steps ++ [0] ↔ steps.length < 8) ∧
    (8 ≤ steps.length → encodeSequence steps = encodeSteps steps) := by
  refine ⟨?_, ?_, ⟨?_, ?_⟩, ?_⟩
  · simp [encodeSteps, List.take_take]
  · simp only [encodeSteps, List.length_map, List.length_take]
    omega
  · intro h
    by_contra hlen
    have hneg : ¬ (steps.length < 8 ∧ (encodeSteps steps).getLast? ≠ some 0) := by
      rintro ⟨h1, -⟩; exact hlen h1
    simp only [encodeSequence, if_neg hneg] at h
    have hl := congrArg List.length h
    simp at hl
  · intro h
    simp only [encodeSequence,
      if_pos (And.intro h (encodeSteps_getLast?_ne_zero steps))]
  · intro h
    simp only [encodeSequence]
    rw [if_neg]
    rintro ⟨h1, -⟩
    omega

/-- Witness for C4: a single-step input gets the terminator appended. -/
theorem encodeSteps_truncation_terminator_witness :
    encodeSequence [{ isWait := false, val := 5 }]
      = encodeSteps [{ isWait := false, val := 5 }] ++ [0] :=
  (encodeSteps_truncation_terminator _).2.2.1.mpr (by decide)

/-! ## Claim theorems: trigger engine -/

/-- Every event emitted while scanning one chunk is a single GO-signal write. -/
theorem processChunk_payload (c : List Nat) (writeOk : Nat → Bool) (k : Nat) :
    ∀ e ∈ processChunk c writeOk k, eventPayload e = some (I2C_ADDR, GO_SIGNAL) := by
  intro e he
  obtain ⟨p, -, hp⟩ := List.mem_map.1 he
  subst hp
  cases hwk : writeOk (k + p.1) <;> simp [sendI2CSignal, eventPayload, hwk]

/-- Every event of a sniffer run is either the fatal read fault or a
GO-signal bus write. -/
theorem runSniffer_payload (writeOk : Nat → Bool) :
    ∀ (reads : List ReadResult) (k : Nat) (e : Event), e ∈ runSniffer writeOk reads k →
      e = Event.readFault ∨ eventPayload e = some (I2C_ADDR, GO_SIGNAL) := by
  intro reads
  induction reads with
  | nil =>
      intro k e he
      simp [runSniffer] at he
  | cons r rest ih =>
      intro k e he
      cases r with
      | fault =>
          simp [runSniffer] at he
          exact Or.inl he
      | chunk c =>
          simp only [runSniffer] at he
          rcases List.mem_append.1 he with h | h
          · exact Or.inr (processChunk_payload c writeOk k e h)
          · exact ih _ e h

/-- C2: on every match the dispatched trigger action is exactly one bus write,
of the two bytes `{0x0C, 0x01}`, to the resolved address `0x5a`: the dispatch
trace of a chunk has exactly one event per match, and every non-fault event of
the whole run carries exactly the GO payload — no other bytes are ever
written by the trigger path. -/
theorem trigger_dispatch_is_go_write (writeOk : Nat → Bool) (reads : List ReadResult)
    (k j : Nat) (c : List Nat) :
    (processChunk c writeOk j).length = (scanPositions c).length ∧
    ∀ e ∈ runSniffer writeOk reads k,
      e = Event.readFault ∨ eventPayload e = some (I2C_ADDR, GO_SIGNAL) :=
  ⟨by simp [processChunk, List.enum_length], runSniffer_payload writeOk reads k⟩

/-- Witness for C2: a chunk holding the signature dispatches the GO write. -/
theorem trigger_dispatch_is_go_write_witness :
    Event.i2cSent I2C_ADDR [0x0C, 0x01] = Event.readFault ∨
      eventPayload (Event.i2cSent I2C_ADDR [0x0C, 0x01]) = some (I2C_ADDR, GO_SIGNAL) :=
  (trigger_dispatch_is_go_write (fun _ => true) [ReadResult.chunk TRIGGER_SIG] 0 0
    TRIGGER_SIG).2 (Event.i2cSent I2C_ADDR [0x0C, 0x01]) (by decide)

/-- C1 (failing-input evaluation): the 8-byte signature cut in the middle
(4 bytes in one read, 4 in the next) occurs exactly once in the concatenated
stream, yet the scan loop dispatches nothing — the per-chunk `i + 7 < bytesRead`
scan keeps no carry-over window, so a straddling occurrence is missed. -/
theorem split_signature_missed :
    streamOccurrences ([0x65, 0x62, 0x30, 0x39] ++ [0x30, 0x31, 0x34, 0x30]) = [0] ∧
    runSniffer (fun _ => true)
      [ReadResult.chunk [0x65, 0x62, 0x30, 0x39],
       ReadResult.chunk [0x30, 0x31, 0x34, 0x30]] 0 = [] := by
  decide

/-- C6: a failed usbmon read makes the loop log the fault and exit: the run is
the trace of the successful prefix plus the fault event, independent of
whatever would come after the failing read — no retry, no further reads. -/
theorem read_fault_terminates (writeOk : Nat → Bool) (chunks : List (List Nat))
    (rest : List ReadResult) (k : Nat) :
    runSniffer writeOk (chunks.map ReadResult.chunk ++ ReadResult.fault :: rest) k
      = runSniffer writeOk (chunks.map ReadResult.chunk) k ++ [Event.readFault] := by
  induction chunks generalizing k with
  | nil => rfl
  | cons c cs ih =>
      simp only [List.map_cons, List.cons_append, runSniffer, List.append_eq, ih,
        List.append_assoc]

/-- Scanning one chunk always yields one dispatch-kind event per match,
whatever the bus-write outcomes. -/
theorem processChunk_kinds (c : List Nat) (writeOk : Nat → Bool) (k : Nat) :
    (processChunk c writeOk k).map eventKind
      = List.replicate (scanPositions c).length EventKind.dispatch := by
  apply List.eq_replicate_iff.2
  constructor
  · simp [processChunk, List.enum_length]
  · intro x hx
    obtain ⟨e, he, hex⟩ := List.mem_map.1 hx
    obtain ⟨p, -, hp⟩ := List.mem_map.1 he
    subst hp
    subst hex
    cases hwk : writeOk (k + p.1) <;> simp [sendI2CSignal, eventKind, hwk]

/-- C7: a failed trigger-action bus write is logged (the error event) and
scanning continues — the kind trace of the run (which dispatches happen, and
whether and when a read fault stops it) is the same as if every write
succeeded, so one misfire never halts stream monitoring. -/
theorem write_failure_never_halts (writeOk : Nat → Bool) (reads : List ReadResult)
    (k : Nat) :
    (runSniffer writeOk reads k).map eventKind
      = (runSniffer (fun _ => true) reads k).map eventKind := by
  induction reads generalizing k with
  | nil => rfl
  | cons r rest ih =>
      cases r with
      | fault => rfl
      | chunk c =>
          simp only [runSniffer, List.map_append, processChunk_kinds, ih]

/-- C9: a match is reported at position `i` exactly when `i + 7 < n` holds for
the `n` bytes actually read and the 8 signature bytes all lie inside the
chunk — the `memcmp` is never reached at a position where it would read past
the data read into the buffer. -/
theorem scan_in_bounds (c : List Nat) (i : Nat) :
    i ∈ scanPositions c ↔ i + 7 < c.length ∧ (c.drop i).take 8 = TRIGGER_SIG := by
  simp only [scanPositions, List.mem_filter, List.mem_range, Bool.and_eq_true,
    decide_eq_true_eq, beq_iff_eq]
  constructor
  · rintro ⟨-, h1, h2⟩
    exact ⟨h1, h2⟩
  · rintro ⟨h1, h2⟩
    exact ⟨by omega, h1, h2⟩

/-- Witness for C9: position 0 of a chunk that is exactly the signature. -/
theorem scan_in_bounds_witness : 0 ∈ scanPositions TRIGGER_SIG :=
  (scan_in_bounds TRIGGER_SIG 0).mpr (by decide)

/-! ## Claim theorems: spec-modelled backend operations -/

/-- C5: a step list containing an Effect step whose id exceeds the selected
library cap or the global cap 123 makes `programSequence` fail with
`OutOfRange` — the error branch carries no bus write, so device registers
stay unchanged. -/
theorem programSequence_out_of_range (libId : Nat) (steps : List Step) (s : Step)
    (hmem : s ∈ steps) (heff : s.isWait = false)
    (hgt : ((libById libId).effectMax : Int) < s.val ∨ (EFFECT_ID_MAX : Int) < s.val) :
    programSequence libId steps = Except.error SeqError.outOfRange := by
  unfold programSequence
  by_cases hlen : 8 < steps.length
  · rw [if_pos hlen]
  · rw [if_neg hlen, if_pos]
    refine List.any_eq_true.2 ⟨s, hmem, ?_⟩
    simp [heff]
    exact hgt

/-- Witness for C5: `programSequence([Effect(200)])` on Library 1 (cap 127)
fails with `OutOfRange`. -/
theorem programSequence_out_of_range_witness :
    programSequence 1 [{ isWait := false, val := 200 }]
      = Except.error SeqError.outOfRange :=
  programSequence_out_of_range 1 _ { isWait := false, val := 200 }
    (List.mem_singleton.2 rfl) rfl (Or.inl (by decide))

/-- C8: with a 10 ms cool-down, fire attempts at t = 0 ms, 5 ms and 11 ms
behave as: first fires, second is suppressed with the debouncer state left
unchanged (dropped, not buffered or delayed), third fires. -/
theorem debounce_scenario_0_5_11 :
    (shouldFire { cooldownMs := 10, lastFired := none } 0).1 = true ∧
    (shouldFire (shouldFire { cooldownMs := 10, lastFired := none } 0).2 5).1 = false ∧
    (shouldFire (shouldFire { cooldownMs := 10, lastFired := none } 0).2 5).2
      = (shouldFire { cooldownMs := 10, lastFired := none } 0).2 ∧
    (shouldFire (shouldFire (shouldFire { cooldownMs := 10, lastFired := none } 0).2 5).2
      11).1 = true := by
  decide

end RumbleDeck
